import Mathlib

/-!
Verification of the CYAN casino ledger (`bot_slash.py`).

The Python source is shallowly embedded below.  Conventions:

* SQLite integer columns and Python `int` values are modelled as `ℤ`
  (counters the source keeps non-negative by construction use `ℕ`).
* Python `float` arithmetic (used only in `_payout_now`) is modelled exactly:
  a binary64 value is carried as an exact pair `(num : ℤ, den : ℕ)` whose
  denominator is a power of two, and every arithmetic step is followed by
  `roundPair`, a correct round-to-nearest, ties-to-even rounding to a 53-bit
  significand.  Every value the program can produce lies far inside the
  binary64 normal range, so overflow, underflow and subnormals never occur
  and this rounding is exactly the IEEE-754 double behaviour of CPython.
* Configuration constants take the source's default values
  (`MIN_BET = 10`, `MAX_BET = 100000`, `DAILY_AMOUNT = 50`).
* Randomness (`random.sample`, `random.randint`, `random.choice`) is passed
  in as an explicit oracle argument ranging over the support the source
  draws from; resolution is a deterministic function of that draw.
-/

/-- Fuel-driven binary logarithm: `nlog2 fuel n` is `⌊log₂ n⌋` for
`1 ≤ n < 2 ^ fuel` (structural recursion so that kernel reduction works). -/
def nlog2 : ℕ → ℕ → ℕ
  | 0, _ => 0
  | fuel + 1, n => if n < 2 then 0 else nlog2 fuel (n / 2) + 1

/-- Test `2 ^ d ≤ m / b` for an integer exponent `d`, using only `ℕ`
arithmetic (`b > 0` at every use site). -/
def le_pow2 (d : ℤ) (m b : ℕ) : Bool :=
  if 0 ≤ d then Nat.ble (b * 2 ^ d.toNat) m else Nat.ble b (m * 2 ^ (-d).toNat)

/-- Floor of the base-2 logarithm of the positive rational `m / b`. -/
def flog2q (m b : ℕ) : ℤ :=
  let d : ℤ := (nlog2 256 m : ℤ) - (nlog2 256 b : ℤ)
  if le_pow2 d m b then d else d - 1

/-- Round the non-negative rational `x / y` to the nearest natural number,
ties to even (the IEEE-754 default significand rounding). -/
def rneDiv (x y : ℕ) : ℕ :=
  let q := x / y
  let r := x % y
  if 2 * r < y then q
  else if y < 2 * r then q + 1
  else if q % 2 = 0 then q else q + 1

/-- Round the exact rational `a / b` (with `b > 0`) to the nearest IEEE-754
binary64 value, returned as an exact pair `(num, den)` with `den` a power of
two.  Assumes the value is in the binary64 normal range, which holds for
every value `_payout_now` computes. -/
def roundPair (a : ℤ) (b : ℕ) : ℤ × ℕ :=
  if a = 0 then (0, 1)
  else
    let m := a.natAbs
    let e := flog2q m b
    let pr : ℕ × ℕ :=
      if e ≤ 52 then (rneDiv (m * 2 ^ (52 - e).toNat) b, 2 ^ (52 - e).toNat)
      else (rneDiv m (b * 2 ^ (e - 52).toNat) * 2 ^ (e - 52).toNat, 1)
    (if a < 0 then -(pr.1 : ℤ) else (pr.1 : ℤ), pr.2)

/-- Python `int(x)` on the exact pair `x / y`: truncation toward zero. -/
def itruncPair (x : ℤ) (y : ℕ) : ℤ :=
  if x < 0 then -(((-x).toNat / y : ℕ) : ℤ) else ((x.toNat / y : ℕ) : ℤ)

/-- Stage `progress = len(self.revealed) / self.safe_total if self.safe_total else 0`. -/
def fprogress (revealed safe_total : ℕ) : ℤ × ℕ :=
  if safe_total = 0 then (0, 1) else roundPair (revealed : ℤ) safe_total

/-- Stage `progress * (self.multiplier - 1)`. -/
def fterm (p : ℤ × ℕ) (multiplier : ℤ) : ℤ × ℕ :=
  roundPair (p.1 * (multiplier - 1)) p.2

/-- Stage `1 + _`. -/
def fsum (t : ℤ × ℕ) : ℤ × ℕ :=
  roundPair ((t.2 : ℤ) + t.1) t.2

/-- Stage `self.bet * _`. -/
def fprod (bet : ℤ) (u : ℤ × ℕ) : ℤ × ℕ :=
  roundPair (bet * u.1) u.2

/-- `MinesView._payout_now` and `TowerView._payout_now` (`bot_slash.py`
lines 333-337 and 486-488):

    progress = len(self.revealed) / self.safe_total if self.safe_total else 0
    return int(self.bet * (1 + progress * (self.multiplier - 1)))

with each float operation rounded to binary64. -/
def payout_now (bet : ℤ) (revealed safe_total : ℕ) (multiplier : ℤ) : ℤ :=
  itruncPair (fprod bet (fsum (fterm (fprogress revealed safe_total) multiplier))).1
    (fprod bet (fsum (fterm (fprogress revealed safe_total) multiplier))).2

/-! ## Configuration and ledger primitives -/

/-- `MIN_BET` (line 32, default). -/
def MIN_BET : ℤ := 10

/-- `MAX_BET` (line 33, default). -/
def MAX_BET : ℤ := 100000

/-- `DAILY_AMOUNT` (line 34, default). -/
def DAILY_AMOUNT : ℤ := 50

/-- `clamp_bet` (lines 131-134). -/
def clamp_bet (bet : ℤ) : ℤ :=
  if bet < MIN_BET then MIN_BET else if bet > MAX_BET then MAX_BET else bet

/-- One row of the `transactions` table as written by `add_transaction`
(lines 122-129); the free-text `details` column is not modelled. -/
structure Txn where
  kind : String
  amount : ℤ
deriving DecidableEq

/-! ## Coinflip (`CasinoMenuView._do_coinflip`, lines 817-833) -/

/-- Support of `random.choice(["heads", "tails"])`. -/
inductive Coin | heads | tails
deriving DecidableEq

/-- `CasinoMenuView._do_coinflip` (lines 817-833): balance check, then the
draw `result`, then `+bet` and a `coinflip_win` record on a win or `-bet`
and a `coinflip_loss` record on a loss.  Returns the new balance and the
transaction records appended. -/
def do_coinflip (bal bet : ℤ) (choice result : Coin) : ℤ × List Txn :=
  let b := clamp_bet bet
  if b > bal then (bal, [])
  else if choice = result then (bal + b, [⟨"coinflip_win", b⟩])
  else (bal - b, [⟨"coinflip_loss", -b⟩])

/-! ## Slots (`CasinoMenuView._do_slots`, lines 835-855) -/

/-- The fixed symbol set has five symbols (line 840). -/
abbrev SlotSym := Fin 5

/-- Multiplier resolution (lines 842-844):
`len(set(reel)) == 1` gives 10, `any(reel.count(s) == 2 for s in reel)`
gives 2, otherwise 0. -/
def slots_mult (a b c : SlotSym) : ℤ :=
  if a = b ∧ b = c then 10
  else if [a, b, c].count a = 2 ∨ [a, b, c].count b = 2 ∨ [a, b, c].count c = 2 then 2
  else 0

/-- `CasinoMenuView._do_slots` (lines 835-855). -/
def do_slots (bal bet : ℤ) (a b c : SlotSym) : ℤ × List Txn :=
  let bt := clamp_bet bet
  if bt > bal then (bal, [])
  else
    let m := slots_mult a b c
    if m ≠ 0 then (bal + bt * m, [⟨"slots_win", bt * m⟩])
    else (bal - bt, [⟨"slots_loss", -bt⟩])

/-! ## Roulette (`ROULETTE_RED`/`ROULETTE_BLACK` lines 576-577,
`RouletteView._spin` lines 621-659) -/

def ROULETTE_RED : Finset ℕ :=
  {1, 3, 5, 7, 9, 12, 14, 16, 18, 19, 21, 23, 25, 27, 30, 32, 34, 36}

def ROULETTE_BLACK : Finset ℕ :=
  {2, 4, 6, 8, 10, 11, 13, 15, 17, 20, 22, 24, 26, 28, 29, 31, 33, 35}

/-- The four bet kinds of `RouletteView`. -/
inductive RouletteBet
  | red | black | green | number (n : ℕ)
deriving DecidableEq

/-- Colour mapping (line 628):
`"green" if result == 0 else ("red" if result in ROULETTE_RED else "black")`. -/
def roulette_color (result : ℕ) : String :=
  if result = 0 then "green" else if result ∈ ROULETTE_RED then "red" else "black"

/-- `win_mult` resolution (lines 630-643). -/
def roulette_mult (kind : RouletteBet) (result : ℕ) : ℤ :=
  match kind with
  | .red => if roulette_color result = "red" then 2 else 0
  | .black => if roulette_color result = "black" then 2 else 0
  | .green => if result = 0 then 14 else 0
  | .number n => if result = n then 36 else 0

/-- `RouletteView._spin` (lines 621-659): balance check before the draw,
then `+bet*win_mult` with a `roulette_win` record, or `-bet` with a
`roulette_loss` record.  `result` is the oracle for `random.randint(0, 36)`. -/
def roulette_spin (bal bet : ℤ) (kind : RouletteBet) (result : ℕ) : ℤ × List Txn :=
  let bt := clamp_bet bet
  if bt > bal then (bal, [])
  else
    let m := roulette_mult kind result
    if m ≠ 0 then (bal + bt * m, [⟨"roulette_win", bt * m⟩])
    else (bal - bt, [⟨"roulette_loss", -bt⟩])

/-! ## Mines (`MinesView`, lines 310-434) -/

/-- `DIFFS` (lines 304-308): difficulty → (mines_count, full_clear_multiplier). -/
inductive Diff | easy | normal | hard
deriving DecidableEq

def DIFFS : Diff → ℕ × ℤ
  | .easy => (3, 2)
  | .normal => (5, 3)
  | .hard => (8, 5)

/-- In-memory state of one `MinesView` (lines 310-322). -/
structure MinesView where
  bet : ℤ
  size : ℕ
  multiplier : ℤ
  mines : Finset ℕ
  revealed : Finset ℕ
  alive : Bool
  safe_total : ℕ
deriving DecidableEq

/-- `MinesView.__init__` (lines 311-331).  `layout` is the oracle for
`random.sample(range(total), mines_count)`; faithfulness of the draw
(`layout.card` equal to the clamped mines count, `layout ⊆ range 25`) is
carried as a hypothesis where a theorem needs it.  Note: no balance is read
and no check against the bet is made here. -/
def minesInit (bet : ℤ) (mines_count : ℕ) (multiplier : ℤ) (layout : Finset ℕ) : MinesView :=
  let total := 25
  let mc := min (max 1 mines_count) (total - 1)
  { bet := clamp_bet bet
    size := 5
    multiplier := multiplier
    mines := layout
    revealed := ∅
    alive := true
    safe_total := total - mc }

/-- `MinesView._payout_now` applied to a session (lines 333-337). -/
def mines_payout (s : MinesView) : ℤ :=
  payout_now s.bet s.revealed.card s.safe_total s.multiplier

/-- Tile click handler `MinesView._make_tile.on_click` (lines 346-407),
given the current stored balance; returns the session, the new balance and
the transaction records written.  The guard sequence is the source's:
dead session → no-op, already-revealed tile → no-op (`defer`), mine →
`alive = False` first, then loss clamped to `min(bet, balance)`; safe tile →
reveal, and on the last safe tile `alive = False` then `+bet*multiplier`. -/
def minesClick (s : MinesView) (idx : ℕ) (bal : ℤ) : MinesView × ℤ × List Txn :=
  if s.alive = false then (s, bal, [])
  else if idx ∈ s.revealed then (s, bal, [])
  else if idx ∈ s.mines then
    let s2 := { s with alive := false }
    let loss := min s.bet bal
    (s2, bal - loss, [⟨"mines_loss", -loss⟩])
  else
    let s2 := { s with revealed := insert idx s.revealed }
    if s.safe_total - s2.revealed.card = 0 then
      let win := s.bet * s.multiplier
      ({ s2 with alive := false }, bal + win, [⟨"mines_win", win⟩])
    else (s2, bal, [])

/-- `MinesView._cashout_button.on_click` (lines 412-434): dead session →
no-op; otherwise `alive = False` first, then `+_payout_now()`. -/
def minesCashout (s : MinesView) (bal : ℤ) : MinesView × ℤ × List Txn :=
  if s.alive = false then (s, bal, [])
  else
    let s2 := { s with alive := false }
    (s2, bal + mines_payout s, [⟨"mines_cashout", mines_payout s⟩])

/-! ## Tower (`TowerView`, lines 468-573) -/

/-- In-memory state of one `TowerView` (lines 469-484). -/
structure TowerView where
  bet : ℤ
  rows : ℕ
  choices : ℕ
  current_row : ℕ
  alive : Bool
  bombs : List ℕ
  full_mult : ℤ
deriving DecidableEq

/-- `TowerView.__init__` (lines 469-484); `bombs` is the oracle for the
per-row `random.randint(0, choices-1)` draws.  No balance check is made. -/
def towerInit (bet : ℤ) (bombs : List ℕ) : TowerView :=
  { bet := clamp_bet bet
    rows := 5
    choices := 3
    current_row := 0
    alive := true
    bombs := bombs
    full_mult := 4 }

/-- `TowerView._payout_now` applied to a session (lines 486-488). -/
def tower_payout (s : TowerView) : ℤ :=
  payout_now s.bet s.current_row s.rows s.full_mult

/-- Row-pick handler (lines 503-551): dead session → no-op; bomb →
`alive = False` then loss `min(bet, balance)`; safe pick → advance, and on
the top row `alive = False` then `+bet*full_mult`. -/
def towerPick (s : TowerView) (pick : ℕ) (bal : ℤ) : TowerView × ℤ × List Txn :=
  if s.alive = false then (s, bal, [])
  else
    let bomb := s.bombs.getD s.current_row 0
    if pick = bomb then
      let loss := min s.bet bal
      ({ s with alive := false }, bal - loss, [⟨"tower_loss", -loss⟩])
    else
      let s2 := { s with current_row := s.current_row + 1 }
      if s2.current_row ≥ s.rows then
        let win := s.bet * s.full_mult
        ({ s2 with alive := false }, bal + win, [⟨"tower_win", win⟩])
      else (s2, bal, [])

/-- `TowerView._cashout_button.on_click` (lines 556-573). -/
def towerCashout (s : TowerView) (bal : ℤ) : TowerView × ℤ × List Txn :=
  if s.alive = false then (s, bal, [])
  else
    let s2 := { s with alive := false }
    (s2, bal + tower_payout s, [⟨"tower_cashout", tower_payout s⟩])

/-! ## Redemption workflow (`RewardSelect.callback` lines 682-719,
`RedeemReviewView._finalize` lines 264-289) -/

/-- The `status` column of the `redeems` table (line 78). -/
inductive RStatus | pending | approved | denied | completed
deriving DecidableEq

/-- One row of the `redeems` table (lines 74-82); `user_id`/`ts` are not
needed by any claim and are omitted. -/
structure RedeemRow where
  amount : ℤ
  status : RStatus
  reason : String
  ticket_channel_id : Option ℕ
deriving DecidableEq

/-- The observable effects of one `_finalize` call: whether the call
succeeded (performed the status transition), whether the requesting user
was messaged, and whether a ticket channel was opened. -/
structure FinalizeEffects where
  ok : Bool
  userNotified : Bool
  ticketOpened : Bool
deriving DecidableEq

/-- The `SELECT status FROM redeems WHERE id=?` statement of `_finalize`
(line 267). -/
def finalizeRead (row : RedeemRow) : RStatus := row.status

/-- The remainder of `_finalize`'s critical section, acting on a previously
read status: the `pending` check (line 269) followed by the *unconditional*
`UPDATE redeems SET status=?, reason=? WHERE id=?` (line 271).  Returns the
updated row and whether the update was performed. -/
def finalizeWrite (row : RedeemRow) (observed : RStatus) (decision : RStatus)
    (note : String) : RedeemRow × Bool :=
  if observed ≠ RStatus.pending then (row, false)
  else ({ row with status := decision, reason := note }, true)

/-- `RedeemReviewView._finalize` (lines 264-289) executed in one piece:
read the status, conditionally update, then on success DM the user and, on
an `approved` decision, open a ticket channel (`_open_ticket`, lines
239-263, which stores `ticket_channel_id`).  `ticket_channel` is the oracle
for the created channel's id. -/
def finalize (row : RedeemRow) (decision : RStatus) (note : String)
    (ticket_channel : ℕ) : RedeemRow × FinalizeEffects :=
  let observed := finalizeRead row
  let wr := finalizeWrite row observed decision note
  if wr.2 = false then (wr.1, ⟨false, false, false⟩)
  else if decision = RStatus.approved then
    ({ wr.1 with ticket_channel_id := some ticket_channel }, ⟨true, true, true⟩)
  else (wr.1, ⟨true, true, false⟩)

/-- Interleaved execution of two `_finalize` calls on the same request in
which both `SELECT` statements run before either `UPDATE` (the schedule the
spec's concurrency model admits, since the read and the write are separate
statements): returns the final row and each call's success flag. -/
def finalize_race (row : RedeemRow) (d1 d2 : RStatus) (n1 n2 : String) :
    RedeemRow × Bool × Bool :=
  let o1 := finalizeRead row
  let o2 := finalizeRead row
  let wr1 := finalizeWrite row o1 d1 n1
  let wr2 := finalizeWrite wr1.1 o2 d2 n2
  (wr2.1, wr1.2, wr2.2)

/-- World visible to the redemption workflow: the requester's balance, the
request row and the transaction log. -/
structure RWorld where
  bal : ℤ
  row : RedeemRow
  log : List Txn
deriving DecidableEq

/-- `RewardSelect.callback` (lines 682-719): balance check against the
reward cost, then `set_balance(bal - cost)`, one `redeem_request`
transaction of `-cost`, and insertion of a `pending` row charged `cost`.
Returns the new balance, the created row (if any) and the records written. -/
def redeemCreate (bal cost : ℤ) : ℤ × Option RedeemRow × List Txn :=
  if cost > bal then (bal, none, [])
  else (bal - cost, some ⟨cost, RStatus.pending, "", none⟩, [⟨"redeem_request", -cost⟩])

/-- One `_finalize` call lifted to `RWorld`.  The body of `_finalize`
(lines 264-289, with `_open_ticket` lines 239-263) executes SQL only
against the `redeems` table — no statement touches `users` or
`transactions` — so balance and log pass through unchanged. -/
def resolveRedeem (w : RWorld) (decision : RStatus) (note : String)
    (ticket_channel : ℕ) : RWorld × FinalizeEffects :=
  let r := finalize w.row decision note ticket_channel
  ({ bal := w.bal, row := r.1, log := w.log }, r.2)

/-! ## Global balance invariant: every balance-mutating operation
(`users.balance` writes all go through `set_balance`, lines 114-120) -/

/-- One balance-affecting operation, with its randomness oracle inlined.
Each constructor corresponds to one `set_balance` call site:
coinflip / slots / roulette (lines 817-855, 621-659), the four mines/tower
settlement sites (lines 362-368, 389-403, 412-434, 519-530, 534-551,
556-573), `/gift` (lines 919-934), `/daily` (lines 881-901), redeem
creation (lines 682-719) and `/setcyan` (lines 998-1009). -/
inductive Op
  | coinflip (u : ℕ) (bet : ℤ) (choice result : Coin)
  | slots (u : ℕ) (bet : ℤ) (a b c : SlotSym)
  | roulette (u : ℕ) (bet : ℤ) (kind : RouletteBet) (result : ℕ)
  | minesLoss (u : ℕ) (bet : ℤ)
  | minesWin (u : ℕ) (bet : ℤ) (d : Diff)
  | minesCash (u : ℕ) (bet : ℤ) (revealed : ℕ) (d : Diff)
  | towerLoss (u : ℕ) (bet : ℤ)
  | towerWin (u : ℕ) (bet : ℤ)
  | towerCash (u : ℕ) (bet : ℤ) (row : ℕ)
  | gift (u v : ℕ) (amount : ℤ)
  | daily (u : ℕ) (cooldownOver : Bool)
  | redeem (u : ℕ) (cost : ℤ)
  | ownerSet (u : ℕ) (amount : ℤ)

/-- Point update of the `users` table (`set_balance`, lines 114-120). -/
def setBal (w : ℕ → ℤ) (u : ℕ) (v : ℤ) : ℕ → ℤ :=
  fun x => if x = u then v else w x

/-- Apply one operation to the balance table, exactly as the corresponding
handler does.  Guards mirror the source: instant games reject
`clamp_bet bet > bal`; mines/tower losses are clamped to
`min(bet, balance)`; `/gift` rejects self-gifts, non-positive amounts and
`amount > sender_bal`; `/daily` credits `DAILY_AMOUNT` when the cooldown
has passed; redeem creation rejects `cost > bal`; `/setcyan` rejects
negative amounts. -/
def applyOp (w : ℕ → ℤ) : Op → (ℕ → ℤ)
  | .coinflip u bet choice result => setBal w u (do_coinflip (w u) bet choice result).1
  | .slots u bet a b c => setBal w u (do_slots (w u) bet a b c).1
  | .roulette u bet kind result => setBal w u (roulette_spin (w u) bet kind result).1
  | .minesLoss u bet => setBal w u (w u - min (clamp_bet bet) (w u))
  | .minesWin u bet d => setBal w u (w u + clamp_bet bet * (DIFFS d).2)
  | .minesCash u bet revealed d =>
      setBal w u (w u + payout_now (clamp_bet bet) revealed (25 - (DIFFS d).1) (DIFFS d).2)
  | .towerLoss u bet => setBal w u (w u - min (clamp_bet bet) (w u))
  | .towerWin u bet => setBal w u (w u + clamp_bet bet * 4)
  | .towerCash u bet row => setBal w u (w u + payout_now (clamp_bet bet) row 5 4)
  | .gift u v amount =>
      if v = u ∨ amount ≤ 0 ∨ amount > w u then w
      else
        let w1 := setBal w u (w u - amount)
        setBal w1 v (w1 v + amount)
  | .daily u cooldownOver => if cooldownOver then setBal w u (w u + DAILY_AMOUNT) else w
  | .redeem u cost => if cost > w u then w else setBal w u (w u - cost)
  | .ownerSet u amount => if amount < 0 then w else setBal w u amount

/-! ## Session runs (for the settle-at-most-once property) -/

/-- One user interaction with a live mines panel. -/
inductive MinesAct
  | click (idx : ℕ)
  | cash

/-- One interaction applied to a running (session, balance, records) state. -/
def minesStep (st : MinesView × ℤ × List Txn) (a : MinesAct) :
    MinesView × ℤ × List Txn :=
  match a with
  | .click idx =>
      let r := minesClick st.1 idx st.2.1
      (r.1, r.2.1, st.2.2 ++ r.2.2)
  | .cash =>
      let r := minesCashout st.1 st.2.1
      (r.1, r.2.1, st.2.2 ++ r.2.2)

/-- Fold a sequence of interactions over a mines session, accumulating the
transaction records written. -/
def minesRun (s : MinesView) (bal : ℤ) (acts : List MinesAct) :
    MinesView × ℤ × List Txn :=
  acts.foldl minesStep (s, bal, [])

/-- One user interaction with a live tower panel. -/
inductive TowerAct
  | pick (i : ℕ)
  | cash

/-- One interaction applied to a running (session, balance, records) state. -/
def towerStep (st : TowerView × ℤ × List Txn) (a : TowerAct) :
    TowerView × ℤ × List Txn :=
  match a with
  | .pick i =>
      let r := towerPick st.1 i st.2.1
      (r.1, r.2.1, st.2.2 ++ r.2.2)
  | .cash =>
      let r := towerCashout st.1 st.2.1
      (r.1, r.2.1, st.2.2 ++ r.2.2)

/-- Fold a sequence of interactions over a tower session. -/
def towerRun (s : TowerView) (bal : ℤ) (acts : List TowerAct) :
    TowerView × ℤ × List Txn :=
  acts.foldl towerStep (s, bal, [])

/-- The spec's mines cash-out formula, following its words:
`floor(bet × (1 + (revealed/safe_total) × (full_clear_multiplier − 1)))`,
evaluated in exact rational arithmetic (stated over `ℕ` where the floor is
truncating division). -/
def payout_spec (bet revealed safe_total mult : ℕ) : ℕ :=
  if safe_total = 0 then bet
  else bet * (safe_total + revealed * (mult - 1)) / safe_total

/-! ## Lemmas about the binary64 model -/

lemma nlog2_spec (fuel : ℕ) : ∀ n, 1 ≤ n → n < 2 ^ fuel →
    2 ^ nlog2 fuel n ≤ n ∧ n < 2 ^ (nlog2 fuel n + 1) := by
  induction fuel with
  | zero =>
    intro n h1 h2
    simp only [pow_zero] at h2
    omega
  | succ fuel ih =>
    intro n h1 h2
    by_cases hn : n < 2
    · simp only [nlog2, if_pos hn, pow_zero, pow_one]
      omega
    · simp only [nlog2, if_neg hn]
      have h1' : 1 ≤ n / 2 := by omega
      have hp : (2:ℕ) ^ (fuel + 1) = 2 ^ fuel * 2 := by ring
      have h2' : n / 2 < 2 ^ fuel := by omega
      obtain ⟨l, u⟩ := ih (n / 2) h1' h2'
      have e1 : (2:ℕ) ^ (nlog2 fuel (n / 2) + 1) = 2 ^ nlog2 fuel (n / 2) * 2 := by ring
      have e2 : (2:ℕ) ^ (nlog2 fuel (n / 2) + 1 + 1) = 2 ^ (nlog2 fuel (n / 2) + 1) * 2 := by
        ring
      constructor
      · omega
      · omega

lemma nlog2_eq (fuel n k : ℕ) (h1 : 2 ^ k ≤ n) (h2 : n < 2 ^ (k + 1))
    (hf : n < 2 ^ fuel) : nlog2 fuel n = k := by
  have h0 : 1 ≤ n := le_trans (Nat.one_le_two_pow) h1
  obtain ⟨l, u⟩ := nlog2_spec fuel n h0 hf
  rcases Nat.lt_trichotomy (nlog2 fuel n) k with h | h | h
  · have : nlog2 fuel n + 1 ≤ k := h
    have hmono := Nat.pow_le_pow_right (by norm_num : 1 ≤ 2) this
    omega
  · exact h
  · have : k + 1 ≤ nlog2 fuel n := h
    have hmono := Nat.pow_le_pow_right (by norm_num : 1 ≤ 2) this
    omega

lemma nlog2_two_pow (j : ℕ) (hj : j < 256) : nlog2 256 (2 ^ j) = j := by
  refine nlog2_eq 256 (2 ^ j) j le_rfl ?_ ?_
  · exact Nat.pow_lt_pow_right (by norm_num) (by omega)
  · exact Nat.pow_lt_pow_right (by norm_num) hj

lemma nlog2_mul_pow (n j : ℕ) (h1 : 1 ≤ n) (hn : n < 2 ^ 53) (hj : j ≤ 140) :
    nlog2 256 (n * 2 ^ j) = nlog2 256 n + j := by
  have hf : n < 2 ^ 256 := lt_of_lt_of_le hn (Nat.pow_le_pow_right (by norm_num) (by norm_num))
  obtain ⟨l, u⟩ := nlog2_spec 256 n h1 hf
  refine nlog2_eq 256 (n * 2 ^ j) (nlog2 256 n + j) ?_ ?_ ?_
  · rw [pow_add]
    exact Nat.mul_le_mul_right _ l
  · calc n * 2 ^ j < 2 ^ (nlog2 256 n + 1) * 2 ^ j :=
          mul_lt_mul_of_pos_right u (Nat.pos_pow_of_pos j (by norm_num))
    _ = 2 ^ (nlog2 256 n + j + 1) := by rw [← pow_add]; ring_nf
  · calc n * 2 ^ j ≤ n * 2 ^ 140 :=
          Nat.mul_le_mul_left n (Nat.pow_le_pow_right (by norm_num) hj)
    _ < 2 ^ 53 * 2 ^ 140 :=
          mul_lt_mul_of_pos_right hn (Nat.pos_pow_of_pos 140 (by norm_num))
    _ ≤ 2 ^ 256 := by norm_num

lemma nlog2_le_52 (n : ℕ) (h1 : 1 ≤ n) (hn : n < 2 ^ 53) : nlog2 256 n ≤ 52 := by
  have hf : n < 2 ^ 256 := lt_of_lt_of_le hn (Nat.pow_le_pow_right (by norm_num) (by norm_num))
  obtain ⟨l, u⟩ := nlog2_spec 256 n h1 hf
  by_contra h
  have : 53 ≤ nlog2 256 n := by omega
  have := Nat.pow_le_pow_right (by norm_num : 1 ≤ 2) this
  omega

lemma rneDiv_exact (x y : ℕ) (hy : 0 < y) (h : y ∣ x) : rneDiv x y = x / y := by
  obtain ⟨c, rfl⟩ := h
  have hm : y * c % y = 0 := Nat.mul_mod_right y c
  simp [rneDiv, hm, hy]

lemma roundPair_zero (b : ℕ) : roundPair 0 b = (0, 1) := by
  simp [roundPair]

lemma le_pow2_natCast (k : ℕ) (m b : ℕ) :
    le_pow2 (k : ℤ) m b = Nat.ble (b * 2 ^ k) m := by
  simp [le_pow2]

lemma roundPair_scaled (w : ℤ) (j : ℕ) (h1 : 1 ≤ w) (h2 : w < 2 ^ 53) (hj : j ≤ 140) :
    ∃ i : ℕ, i ≤ 52 ∧ roundPair (w * 2 ^ j) (2 ^ j) = (w * 2 ^ i, 2 ^ i) := by
  obtain ⟨n, rfl⟩ : ∃ n : ℕ, w = (n : ℤ) :=
    ⟨w.toNat, (Int.toNat_of_nonneg (by omega)).symm⟩
  have hn1 : 1 ≤ n := by exact_mod_cast h1
  have hn2 : n < 2 ^ 53 := by exact_mod_cast h2
  have hL52 : nlog2 256 n ≤ 52 := nlog2_le_52 n hn1 hn2
  have hspec := nlog2_spec 256 n hn1
    (lt_of_lt_of_le hn2 (Nat.pow_le_pow_right (by norm_num) (by norm_num)))
  set L := nlog2 256 n with hLdef
  have ha : ((n : ℤ) * 2 ^ j) ≠ 0 := by positivity
  have hcast : ((n : ℤ) * 2 ^ j) = ((n * 2 ^ j : ℕ) : ℤ) := by push_cast; ring
  have hm : ((n : ℤ) * 2 ^ j).natAbs = n * 2 ^ j := by
    rw [Int.natAbs_mul, Int.natAbs_pow]; simp
  have hflog : flog2q (n * 2 ^ j) (2 ^ j) = (L : ℤ) := by
    rw [flog2q]
    rw [nlog2_mul_pow n j hn1 hn2 hj, nlog2_two_pow j (by omega)]
    have hd : ((L + j : ℕ) : ℤ) - (j : ℤ) = (L : ℤ) := by push_cast; ring
    rw [hd, le_pow2_natCast]
    have hble : Nat.ble (2 ^ j * 2 ^ L) (n * 2 ^ j) = true := by
      rw [Nat.ble_eq]
      calc 2 ^ j * 2 ^ L = 2 ^ L * 2 ^ j := by ring
      _ ≤ n * 2 ^ j := Nat.mul_le_mul_right _ hspec.1
    rw [hble]
    simp
  have hquot : 2 ^ j ∣ n * 2 ^ j * 2 ^ (52 - L) :=
    ⟨n * 2 ^ (52 - L), by ring⟩
  refine ⟨52 - L, by omega, ?_⟩
  have he52 : (L : ℤ) ≤ 52 := by exact_mod_cast hL52
  have htn : ((52 : ℤ) - (L : ℤ)).toNat = 52 - L := by omega
  have hrne : rneDiv (n * 2 ^ j * 2 ^ (52 - L)) (2 ^ j) = n * 2 ^ (52 - L) := by
    rw [rneDiv_exact _ _ (Nat.pos_pow_of_pos j (by norm_num)) hquot]
    have hcomm : n * 2 ^ j * 2 ^ (52 - L) = n * 2 ^ (52 - L) * 2 ^ j := by ring
    rw [hcomm, Nat.mul_div_cancel _ (Nat.pos_pow_of_pos j (by norm_num))]
  have hneg : ¬ ((n : ℤ) * 2 ^ j < 0) := not_lt.mpr (by positivity)
  rw [roundPair, if_neg ha, hm]
  simp only [hflog]
  rw [if_pos he52, htn, hrne, if_neg hneg]
  dsimp only
  refine Prod.ext ?_ ?_ <;> push_cast <;> ring

lemma roundPair_self (s : ℕ) (hs : 0 < s) : roundPair (s : ℤ) s = (2 ^ 52, 2 ^ 52) := by
  have ha : ((s : ℤ)) ≠ 0 := by exact_mod_cast hs.ne'
  have hflog : flog2q s s = 0 := by
    rw [flog2q]
    have hd : ((nlog2 256 s : ℕ) : ℤ) - ((nlog2 256 s : ℕ) : ℤ) = ((0 : ℕ) : ℤ) := by
      push_cast; ring
    rw [hd, le_pow2_natCast]
    have hble : Nat.ble (s * 2 ^ 0) s = true := by
      rw [Nat.ble_eq]; omega
    rw [hble]
    simp
  have hm : ((s : ℤ)).natAbs = s := by simp
  have hrne : rneDiv (s * 2 ^ 52) s = 2 ^ 52 := by
    rw [rneDiv_exact _ _ hs ⟨2 ^ 52, rfl⟩, Nat.mul_div_cancel_left _ hs]
  have hneg : ¬ ((s : ℤ) < 0) := not_lt.mpr (by positivity)
  have htn : ((52 : ℤ) - 0).toNat = 52 := by decide
  rw [roundPair, if_neg ha, hm]
  simp only [hflog]
  rw [if_pos (by norm_num : (0:ℤ) ≤ 52), htn, hrne, if_neg hneg]
  dsimp only
  refine Prod.ext ?_ ?_ <;> push_cast <;> ring

lemma itruncPair_scaled (w : ℤ) (i : ℕ) (hw : 0 ≤ w) :
    itruncPair (w * 2 ^ i) (2 ^ i) = w := by
  obtain ⟨n, rfl⟩ : ∃ n : ℕ, w = (n : ℤ) :=
    ⟨w.toNat, (Int.toNat_of_nonneg hw).symm⟩
  have hx : ¬ ((n : ℤ) * 2 ^ i < 0) := not_lt.mpr (by positivity)
  rw [itruncPair, if_neg hx]
  have hcast : ((n : ℤ) * 2 ^ i) = ((n * 2 ^ i : ℕ) : ℤ) := by push_cast; ring
  rw [hcast, Int.toNat_natCast, Nat.mul_div_cancel _ (Nat.pos_pow_of_pos i (by norm_num))]

lemma roundPair_fst_nonneg (a : ℤ) (b : ℕ) (h : 0 ≤ a) : 0 ≤ (roundPair a b).1 := by
  rw [roundPair]
  by_cases h0 : a = 0
  · simp [h0]
  · have hneg : ¬ (a < 0) := not_lt.mpr h
    simp only [if_neg h0, if_neg hneg]
    exact Int.natCast_nonneg _

lemma itruncPair_nonneg (x : ℤ) (y : ℕ) (h : 0 ≤ x) : 0 ≤ itruncPair x y := by
  rw [itruncPair, if_neg (not_lt.mpr h)]
  positivity

lemma payout_now_zero (bet : ℤ) (s : ℕ) (mult : ℤ) (hb1 : 1 ≤ bet) (hb2 : bet < 2 ^ 53) :
    payout_now bet 0 s mult = bet := by
  have hprog : fprogress 0 s = (0, 1) := by
    rw [fprogress]
    split_ifs with h
    · rfl
    · simp [roundPair_zero]
  have hterm : fterm ((0 : ℤ), (1 : ℕ)) mult = (0, 1) := by
    simp [fterm, roundPair_zero]
  obtain ⟨i, hi, hu⟩ := roundPair_scaled 1 0 (by norm_num) (by norm_num) (by norm_num)
  simp only [pow_zero, mul_one, one_mul] at hu
  have hsum : fsum ((0 : ℤ), (1 : ℕ)) = ((2:ℤ) ^ i, 2 ^ i) := by
    simp only [fsum]
    simpa using hu
  obtain ⟨i2, hi2, hv⟩ := roundPair_scaled bet i hb1 hb2 (by omega)
  have hprodv : fprod bet ((2:ℤ) ^ i, 2 ^ i) = (bet * 2 ^ i2, 2 ^ i2) := by
    simpa [fprod] using hv
  rw [payout_now, hprog, hterm, hsum, hprodv]
  exact itruncPair_scaled bet i2 (by omega)

lemma payout_now_full (bet : ℤ) (s : ℕ) (mult : ℤ) (hs : 0 < s) (h1 : 1 ≤ bet)
    (h2 : bet ≤ 2 ^ 40) (h3 : 1 ≤ mult) (h4 : mult ≤ 2 ^ 10) :
    payout_now bet s s mult = bet * mult := by
  have hprog : fprogress s s = ((2:ℤ) ^ 52, 2 ^ 52) := by
    rw [fprogress, if_neg hs.ne']
    exact roundPair_self s hs
  have hbm1 : 1 ≤ bet * mult := by nlinarith
  have hbm2 : bet * mult < 2 ^ 53 := by
    calc bet * mult ≤ 2 ^ 40 * 2 ^ 10 := by
          apply mul_le_mul h2 h4 (by omega) (by norm_num)
    _ < 2 ^ 53 := by norm_num
  rcases eq_or_lt_of_le h3 with hm1 | hm2
  · -- multiplier 1: the interpolation term is exactly zero
    have hterm : fterm ((2:ℤ) ^ 52, 2 ^ 52) mult = (0, 1) := by
      rw [fterm, ← hm1]
      simp [roundPair_zero]
    obtain ⟨i, hi, hu⟩ := roundPair_scaled 1 0 (by norm_num) (by norm_num) (by norm_num)
    simp only [pow_zero, mul_one, one_mul] at hu
    have hsum : fsum ((0 : ℤ), (1 : ℕ)) = ((2:ℤ) ^ i, 2 ^ i) := by
      simp only [fsum]
      simpa using hu
    obtain ⟨i2, hi2, hv⟩ := roundPair_scaled bet i h1 (by omega) (by omega)
    have hprodv : fprod bet ((2:ℤ) ^ i, 2 ^ i) = (bet * 2 ^ i2, 2 ^ i2) := by
      simpa [fprod] using hv
    rw [payout_now, hprog, hterm, hsum, hprodv, ← hm1, mul_one]
    exact itruncPair_scaled bet i2 (by omega)
  · -- multiplier at least 2
    have hm1' : 1 ≤ mult - 1 := by omega
    have hm53 : mult - 1 < 2 ^ 53 := by
      have : (2:ℤ) ^ 10 < 2 ^ 53 := by norm_num
      omega
    obtain ⟨i, hi, ht⟩ := roundPair_scaled (mult - 1) 52 hm1' hm53 (by norm_num)
    have hterm : fterm ((2:ℤ) ^ 52, 2 ^ 52) mult = ((mult - 1) * 2 ^ i, 2 ^ i) := by
      rw [fterm]
      dsimp only
      rw [mul_comm ((2:ℤ) ^ 52) (mult - 1)]
      exact ht
    have hmult53 : mult < 2 ^ 53 := by
      have : (2:ℤ) ^ 10 < 2 ^ 53 := by norm_num
      omega
    obtain ⟨i2, hi2, hu⟩ := roundPair_scaled mult i h3 hmult53 (by omega)
    have hsum : fsum ((mult - 1) * 2 ^ i, 2 ^ i) = (mult * 2 ^ i2, 2 ^ i2) := by
      rw [fsum]
      dsimp only
      have harg : ((2 ^ i : ℕ) : ℤ) + (mult - 1) * 2 ^ i = mult * 2 ^ i := by
        push_cast; ring
      rw [harg]
      exact hu
    obtain ⟨i3, hi3, hv⟩ := roundPair_scaled (bet * mult) i2 hbm1 hbm2 (by omega)
    have hprodv : fprod bet (mult * 2 ^ i2, 2 ^ i2) = (bet * mult * 2 ^ i3, 2 ^ i3) := by
      rw [fprod]
      dsimp only
      rw [← mul_assoc]
      exact hv
    rw [payout_now, hprog, hterm, hsum, hprodv]
    exact itruncPair_scaled (bet * mult) i3 (by omega)

lemma payout_now_nonneg (bet : ℤ) (r s : ℕ) (mult : ℤ) (hb : 0 ≤ bet) (hm : 1 ≤ mult) :
    0 ≤ payout_now bet r s mult := by
  have hp1 : 0 ≤ (fprogress r s).1 := by
    rw [fprogress]
    split_ifs
    · norm_num
    · exact roundPair_fst_nonneg _ _ (Int.natCast_nonneg r)
  have ht1 : 0 ≤ (fterm (fprogress r s) mult).1 :=
    roundPair_fst_nonneg _ _ (mul_nonneg hp1 (by omega))
  have hu1 : 0 ≤ (fsum (fterm (fprogress r s) mult)).1 :=
    roundPair_fst_nonneg _ _ (add_nonneg (Int.natCast_nonneg _) ht1)
  have hv1 : 0 ≤ (fprod bet (fsum (fterm (fprogress r s) mult))).1 :=
    roundPair_fst_nonneg _ _ (mul_nonneg hb hu1)
  rw [payout_now]
  exact itruncPair_nonneg _ _ hv1

lemma clamp_bet_pos (bet : ℤ) : 0 < clamp_bet bet := by
  rw [clamp_bet, MIN_BET, MAX_BET]
  split_ifs <;> omega

lemma clamp_bet_le (bet : ℤ) : clamp_bet bet ≤ 100000 := by
  rw [clamp_bet, MIN_BET, MAX_BET]
  split_ifs <;> omega

/-! ## Helper lemmas -/

lemma do_coinflip_fst_nonneg (bal bet : ℤ) (choice result : Coin) (h : 0 ≤ bal) :
    0 ≤ (do_coinflip bal bet choice result).1 := by
  have hb := clamp_bet_pos bet
  rw [do_coinflip]
  split_ifs <;> dsimp only <;> omega

lemma slots_mult_nonneg (a b c : SlotSym) : 0 ≤ slots_mult a b c := by
  rw [slots_mult]
  split_ifs <;> norm_num

lemma do_slots_fst_nonneg (bal bet : ℤ) (a b c : SlotSym) (h : 0 ≤ bal) :
    0 ≤ (do_slots bal bet a b c).1 := by
  have hb := clamp_bet_pos bet
  have hm := slots_mult_nonneg a b c
  have hmm : 0 ≤ clamp_bet bet * slots_mult a b c := mul_nonneg (by omega) hm
  rw [do_slots]
  split_ifs <;> dsimp only
  all_goals (try split_ifs) <;> (try dsimp only) <;> omega

lemma roulette_mult_nonneg (kind : RouletteBet) (result : ℕ) :
    0 ≤ roulette_mult kind result := by
  cases kind <;> rw [roulette_mult] <;> split_ifs <;> norm_num

lemma roulette_spin_fst_nonneg (bal bet : ℤ) (kind : RouletteBet) (result : ℕ)
    (h : 0 ≤ bal) : 0 ≤ (roulette_spin bal bet kind result).1 := by
  have hb := clamp_bet_pos bet
  have hm := roulette_mult_nonneg kind result
  have hmm : 0 ≤ clamp_bet bet * roulette_mult kind result := mul_nonneg (by omega) hm
  rw [roulette_spin]
  split_ifs <;> dsimp only
  all_goals (try split_ifs) <;> (try dsimp only) <;> omega

lemma setBal_nonneg (w : ℕ → ℤ) (u : ℕ) (v : ℤ) (hw : ∀ x, 0 ≤ w x) (hv : 0 ≤ v) :
    ∀ x, 0 ≤ setBal w u v x := by
  intro x
  rw [setBal]
  split_ifs
  · exact hv
  · exact hw x

lemma DIFFS_mult_one_le (d : Diff) : 1 ≤ (DIFFS d).2 := by
  cases d <;> decide

lemma applyOp_nonneg (w : ℕ → ℤ) (op : Op) (hw : ∀ x, 0 ≤ w x) :
    ∀ x, 0 ≤ applyOp w op x := by
  cases op with
  | coinflip u bet choice result =>
      exact setBal_nonneg _ _ _ hw (do_coinflip_fst_nonneg _ _ _ _ (hw u))
  | slots u bet a b c =>
      exact setBal_nonneg _ _ _ hw (do_slots_fst_nonneg _ _ _ _ _ (hw u))
  | roulette u bet kind result =>
      exact setBal_nonneg _ _ _ hw (roulette_spin_fst_nonneg _ _ _ _ (hw u))
  | minesLoss u bet =>
      refine setBal_nonneg _ _ _ hw ?_
      have := hw u
      have := clamp_bet_pos bet
      omega
  | minesWin u bet d =>
      refine setBal_nonneg _ _ _ hw ?_
      have h1 := clamp_bet_pos bet
      have h2 := DIFFS_mult_one_le d
      have : 0 ≤ clamp_bet bet * (DIFFS d).2 := mul_nonneg (by omega) (by omega)
      have := hw u
      omega
  | minesCash u bet revealed d =>
      refine setBal_nonneg _ _ _ hw ?_
      have h1 := payout_now_nonneg (clamp_bet bet) revealed (25 - (DIFFS d).1) (DIFFS d).2
        (le_of_lt (clamp_bet_pos bet)) (DIFFS_mult_one_le d)
      have := hw u
      omega
  | towerLoss u bet =>
      refine setBal_nonneg _ _ _ hw ?_
      have := hw u
      have := clamp_bet_pos bet
      omega
  | towerWin u bet =>
      refine setBal_nonneg _ _ _ hw ?_
      have h1 := clamp_bet_pos bet
      have : 0 ≤ clamp_bet bet * 4 := by omega
      have := hw u
      omega
  | towerCash u bet row =>
      refine setBal_nonneg _ _ _ hw ?_
      have h1 := payout_now_nonneg (clamp_bet bet) row 5 4
        (le_of_lt (clamp_bet_pos bet)) (by norm_num)
      have := hw u
      omega
  | gift u v amount =>
      rw [applyOp]
      split_ifs with hg
      · exact hw
      · push_neg at hg
        obtain ⟨hvu, hpos, hle⟩ := hg
        have hw1 : ∀ x, 0 ≤ setBal w u (w u - amount) x :=
          setBal_nonneg _ _ _ hw (by have := hw u; omega)
        refine setBal_nonneg _ _ _ hw1 ?_
        have := hw1 v
        omega
  | daily u cooldownOver =>
      rw [applyOp]
      split_ifs
      · refine setBal_nonneg _ _ _ hw ?_
        have := hw u
        rw [DAILY_AMOUNT]
        omega
      · exact hw
  | redeem u cost =>
      rw [applyOp]
      split_ifs with hc
      · exact hw
      · refine setBal_nonneg _ _ _ hw ?_
        have := hw u
        omega
  | ownerSet u amount =>
      rw [applyOp]
      split_ifs with ha
      · exact hw
      · exact setBal_nonneg _ _ _ hw (by omega)

lemma foldl_applyOp_nonneg (ops : List Op) :
    ∀ (w : ℕ → ℤ), (∀ x, 0 ≤ w x) → ∀ x, 0 ≤ ops.foldl applyOp w x := by
  induction ops with
  | nil => intro w hw x; exact hw x
  | cons op rest ih =>
      intro w hw x
      exact ih (applyOp w op) (applyOp_nonneg w op hw) x

lemma minesClick_dead (s : MinesView) (idx : ℕ) (bal : ℤ) (h : s.alive = false) :
    minesClick s idx bal = (s, bal, []) := by
  rw [minesClick, if_pos h]

lemma minesCashout_dead (s : MinesView) (bal : ℤ) (h : s.alive = false) :
    minesCashout s bal = (s, bal, []) := by
  rw [minesCashout, if_pos h]

lemma minesClick_emits (s : MinesView) (idx : ℕ) (bal : ℤ) :
    (minesClick s idx bal).2.2 ≠ [] → (minesClick s idx bal).1.alive = false := by
  rw [minesClick]
  split_ifs <;> dsimp only
  all_goals (try split_ifs) <;> (try dsimp only) <;> intro h <;> first | rfl | exact absurd rfl h

lemma minesClick_len (s : MinesView) (idx : ℕ) (bal : ℤ) :
    (minesClick s idx bal).2.2.length ≤ 1 := by
  rw [minesClick]
  split_ifs <;> dsimp only
  all_goals (try split_ifs) <;> (try dsimp only) <;> norm_num

lemma minesCashout_emits (s : MinesView) (bal : ℤ) :
    (minesCashout s bal).2.2 ≠ [] → (minesCashout s bal).1.alive = false := by
  rw [minesCashout]
  split_ifs <;> dsimp only <;> intro h <;> first | rfl | exact absurd rfl h

lemma minesCashout_len (s : MinesView) (bal : ℤ) :
    (minesCashout s bal).2.2.length ≤ 1 := by
  rw [minesCashout]
  split_ifs <;> dsimp only <;> norm_num

lemma minesStep_inv (st : MinesView × ℤ × List Txn) (a : MinesAct)
    (h1 : st.1.alive = true → st.2.2 = []) (h2 : st.2.2.length ≤ 1) :
    ((minesStep st a).1.alive = true → (minesStep st a).2.2 = []) ∧
    (minesStep st a).2.2.length ≤ 1 := by
  obtain ⟨s, bal, log⟩ := st
  dsimp only at h1 h2
  by_cases ha : s.alive = true
  · have hlog : log = [] := h1 ha
    subst hlog
    cases a with
    | click idx =>
        simp only [minesStep, List.nil_append]
        constructor
        · intro halive
          by_contra hne
          have := minesClick_emits s idx bal hne
          rw [halive] at this
          simp at this
        · exact minesClick_len s idx bal
    | cash =>
        simp only [minesStep, List.nil_append]
        constructor
        · intro halive
          by_contra hne
          have := minesCashout_emits s bal hne
          rw [halive] at this
          simp at this
        · exact minesCashout_len s bal
  · have ha' : s.alive = false := by
      cases hsa : s.alive
      · rfl
      · exact absurd hsa ha
    cases a with
    | click idx =>
        simp only [minesStep, minesClick_dead s idx bal ha', List.append_nil]
        exact ⟨fun h => absurd h ha, h2⟩
    | cash =>
        simp only [minesStep, minesCashout_dead s bal ha', List.append_nil]
        exact ⟨fun h => absurd h ha, h2⟩

lemma minesRun_aux (acts : List MinesAct) :
    ∀ (st : MinesView × ℤ × List Txn),
      (st.1.alive = true → st.2.2 = []) → st.2.2.length ≤ 1 →
      ((acts.foldl minesStep st).1.alive = true → (acts.foldl minesStep st).2.2 = []) ∧
      (acts.foldl minesStep st).2.2.length ≤ 1 := by
  induction acts with
  | nil => intro st h1 h2; exact ⟨h1, h2⟩
  | cons a rest ih =>
      intro st h1 h2
      obtain ⟨g1, g2⟩ := minesStep_inv st a h1 h2
      exact ih (minesStep st a) g1 g2

lemma minesRun_le_one (s : MinesView) (bal : ℤ) (acts : List MinesAct) :
    (minesRun s bal acts).2.2.length ≤ 1 :=
  (minesRun_aux acts (s, bal, []) (fun _ => rfl) (by norm_num)).2

lemma towerPick_dead (s : TowerView) (i : ℕ) (bal : ℤ) (h : s.alive = false) :
    towerPick s i bal = (s, bal, []) := by
  rw [towerPick, if_pos h]

lemma towerCashout_dead (s : TowerView) (bal : ℤ) (h : s.alive = false) :
    towerCashout s bal = (s, bal, []) := by
  rw [towerCashout, if_pos h]

lemma towerPick_emits (s : TowerView) (i : ℕ) (bal : ℤ) :
    (towerPick s i bal).2.2 ≠ [] → (towerPick s i bal).1.alive = false := by
  rw [towerPick]
  split_ifs <;> dsimp only
  all_goals (try split_ifs) <;> (try dsimp only) <;> intro h <;> first | rfl | exact absurd rfl h

lemma towerPick_len (s : TowerView) (i : ℕ) (bal : ℤ) :
    (towerPick s i bal).2.2.length ≤ 1 := by
  rw [towerPick]
  split_ifs <;> dsimp only
  all_goals (try split_ifs) <;> (try dsimp only) <;> norm_num

lemma towerCashout_emits (s : TowerView) (bal : ℤ) :
    (towerCashout s bal).2.2 ≠ [] → (towerCashout s bal).1.alive = false := by
  rw [towerCashout]
  split_ifs <;> dsimp only <;> intro h <;> first | rfl | exact absurd rfl h

lemma towerCashout_len (s : TowerView) (bal : ℤ) :
    (towerCashout s bal).2.2.length ≤ 1 := by
  rw [towerCashout]
  split_ifs <;> dsimp only <;> norm_num

lemma towerStep_inv (st : TowerView × ℤ × List Txn) (a : TowerAct)
    (h1 : st.1.alive = true → st.2.2 = []) (h2 : st.2.2.length ≤ 1) :
    ((towerStep st a).1.alive = true → (towerStep st a).2.2 = []) ∧
    (towerStep st a).2.2.length ≤ 1 := by
  obtain ⟨s, bal, log⟩ := st
  dsimp only at h1 h2
  by_cases ha : s.alive = true
  · have hlog : log = [] := h1 ha
    subst hlog
    cases a with
    | pick i =>
        simp only [towerStep, List.nil_append]
        constructor
        · intro halive
          by_contra hne
          have := towerPick_emits s i bal hne
          rw [halive] at this
          simp at this
        · exact towerPick_len s i bal
    | cash =>
        simp only [towerStep, List.nil_append]
        constructor
        · intro halive
          by_contra hne
          have := towerCashout_emits s bal hne
          rw [halive] at this
          simp at this
        · exact towerCashout_len s bal
  · have ha' : s.alive = false := by
      cases hsa : s.alive
      · rfl
      · exact absurd hsa ha
    cases a with
    | pick i =>
        simp only [towerStep, towerPick_dead s i bal ha', List.append_nil]
        exact ⟨fun h => absurd h ha, h2⟩
    | cash =>
        simp only [towerStep, towerCashout_dead s bal ha', List.append_nil]
        exact ⟨fun h => absurd h ha, h2⟩

lemma towerRun_aux (acts : List TowerAct) :
    ∀ (st : TowerView × ℤ × List Txn),
      (st.1.alive = true → st.2.2 = []) → st.2.2.length ≤ 1 →
      ((acts.foldl towerStep st).1.alive = true → (acts.foldl towerStep st).2.2 = []) ∧
      (acts.foldl towerStep st).2.2.length ≤ 1 := by
  induction acts with
  | nil => intro st h1 h2; exact ⟨h1, h2⟩
  | cons a rest ih =>
      intro st h1 h2
      obtain ⟨g1, g2⟩ := towerStep_inv st a h1 h2
      exact ih (towerStep st a) g1 g2

lemma towerRun_le_one (s : TowerView) (bal : ℤ) (acts : List TowerAct) :
    (towerRun s bal acts).2.2.length ≤ 1 :=
  (towerRun_aux acts (s, bal, []) (fun _ => rfl) (by norm_num)).2

/-! ## Claim theorems -/

/-- C2: for every account and every sequence of balance-affecting operations
(bets, losses, cash-outs, gifts, daily claims, redeems, admin sets), the
stored balance is never negative after any operation — every debit either
succeeds fully or is rejected before mutation — and the losses applied by
the progressive games (mines, tower) are clamped to
`min(bet, current_balance)`. -/
theorem balance_never_negative :
    (∀ (ops : List Op) (w : ℕ → ℤ), (∀ x, 0 ≤ w x) → ∀ x, 0 ≤ ops.foldl applyOp w x) ∧
    (∀ (w : ℕ → ℤ) (u : ℕ) (bet : ℤ),
        applyOp w (Op.minesLoss u bet) u = w u - min (clamp_bet bet) (w u)) ∧
    (∀ (w : ℕ → ℤ) (u : ℕ) (bet : ℤ),
        applyOp w (Op.towerLoss u bet) u = w u - min (clamp_bet bet) (w u)) := by
  refine ⟨fun ops => foldl_applyOp_nonneg ops, ?_, ?_⟩ <;>
    intro w u bet <;> simp [applyOp, setBal]

/-- Witness for C2 at a concrete world and operation list. -/
theorem balance_never_negative_witness :
    0 ≤ ([Op.coinflip 1 20 Coin.heads Coin.tails, Op.gift 1 2 30,
          Op.redeem 2 10].foldl applyOp (fun _ => (100:ℤ))) 2 :=
  balance_never_negative.1 _ (fun _ => (100:ℤ)) (fun _ => by norm_num) 2

/-- C8: in coin-flip the player wins iff the drawn outcome equals their
call; the net effect is `+bet` with a single `coinflip_win` record on a win
and `-bet` with a single `coinflip_loss` record on a loss; concretely,
balance 100, bet 20, calling heads with draw heads yields balance 120 and
one `coinflip_win` record of +20. -/
theorem coinflip_resolution :
    (∀ (bal bet : ℤ) (choice result : Coin), clamp_bet bet ≤ bal →
      (choice = result →
        do_coinflip bal bet choice result =
          (bal + clamp_bet bet, [⟨"coinflip_win", clamp_bet bet⟩])) ∧
      (choice ≠ result →
        do_coinflip bal bet choice result =
          (bal - clamp_bet bet, [⟨"coinflip_loss", -clamp_bet bet⟩]))) ∧
    do_coinflip 100 20 Coin.heads Coin.heads = (120, [⟨"coinflip_win", 20⟩]) := by
  constructor
  · intro bal bet choice result hle
    have hng : ¬ (clamp_bet bet > bal) := not_lt.mpr hle
    constructor <;> intro h <;> simp [do_coinflip, hng, h]
  · decide

/-- Witness for C8: the loss side at a concrete input. -/
theorem coinflip_resolution_witness :
    do_coinflip 100 20 Coin.heads Coin.tails = (80, [⟨"coinflip_loss", -20⟩]) :=
  (coinflip_resolution.1 100 20 Coin.heads Coin.tails (by decide)).2 (by decide)

/-- C9: in slots the multiplier is 10 when all three drawn symbols are
equal, 2 when exactly one pair is repeated, 0 when all are distinct; a loss
debits exactly the bet and a win credits exactly `bet × multiplier`. -/
theorem slots_resolution :
    (∀ a b c : SlotSym,
      (a = b ∧ b = c → slots_mult a b c = 10) ∧
      (¬(a = b ∧ b = c) ∧ (a = b ∨ b = c ∨ a = c) → slots_mult a b c = 2) ∧
      (a ≠ b ∧ b ≠ c ∧ a ≠ c → slots_mult a b c = 0)) ∧
    (∀ (bal bet : ℤ) (a b c : SlotSym), clamp_bet bet ≤ bal →
      (slots_mult a b c ≠ 0 →
        do_slots bal bet a b c =
          (bal + clamp_bet bet * slots_mult a b c,
            [⟨"slots_win", clamp_bet bet * slots_mult a b c⟩])) ∧
      (slots_mult a b c = 0 →
        do_slots bal bet a b c =
          (bal - clamp_bet bet, [⟨"slots_loss", -clamp_bet bet⟩]))) := by
  constructor
  · decide
  · intro bal bet a b c hle
    have hng : ¬ (clamp_bet bet > bal) := not_lt.mpr hle
    constructor <;> intro h <;> simp [do_slots, hng, h]

/-- Witness for C9: a one-pair draw at a concrete input. -/
theorem slots_resolution_witness :
    do_slots 100 20 (0 : SlotSym) 0 1 = (140, [⟨"slots_win", 40⟩]) :=
  (slots_resolution.2 100 20 0 0 1 (by decide)).1 (by decide)

/-- C10: mines and tower cash-out is permitted with zero progress
(`revealed = ∅` / `current_row = 0`), and since the bet is never debited at
session start such a cash-out credits exactly the session's (clamped) bet —
for every bet, every layout and every balance, cashing out immediately
after starting strictly increases the balance by the session bet. -/
theorem zero_progress_cashout :
    (∀ (bet : ℤ) (mc : ℕ) (mult : ℤ) (layout : Finset ℕ) (bal : ℤ),
        minesCashout (minesInit bet mc mult layout) bal =
          ({ minesInit bet mc mult layout with alive := false },
            bal + clamp_bet bet, [⟨"mines_cashout", clamp_bet bet⟩]) ∧
        0 < clamp_bet bet) ∧
    (∀ (bet : ℤ) (bombs : List ℕ) (bal : ℤ),
        towerCashout (towerInit bet bombs) bal =
          ({ towerInit bet bombs with alive := false },
            bal + clamp_bet bet, [⟨"tower_cashout", clamp_bet bet⟩]) ∧
        0 < clamp_bet bet) := by
  have h53 : ∀ bet : ℤ, clamp_bet bet < 2 ^ 53 := by
    intro bet
    have := clamp_bet_le bet
    have hp : (2:ℤ) ^ 53 = 9007199254740992 := by norm_num
    omega
  have h1 : ∀ bet : ℤ, 1 ≤ clamp_bet bet := by
    intro bet
    have := clamp_bet_pos bet
    omega
  constructor
  · intro bet mc mult layout bal
    have hpay : mines_payout (minesInit bet mc mult layout) = clamp_bet bet := by
      simp only [mines_payout, minesInit]
      rw [Finset.card_empty]
      exact payout_now_zero _ _ _ (h1 bet) (h53 bet)
    have hngalive : ¬ ((minesInit bet mc mult layout).alive = false) := by
      simp [minesInit]
    refine ⟨?_, clamp_bet_pos bet⟩
    rw [minesCashout, if_neg hngalive, hpay]
  · intro bet bombs bal
    have hpay : tower_payout (towerInit bet bombs) = clamp_bet bet := by
      simp only [tower_payout, towerInit]
      exact payout_now_zero _ _ _ (h1 bet) (h53 bet)
    have hngalive : ¬ ((towerInit bet bombs).alive = false) := by
      simp [towerInit]
    refine ⟨?_, clamp_bet_pos bet⟩
    rw [towerCashout, if_neg hngalive, hpay]

/-- C4 counterexample: the claimed exact formula
`floor(bet × (1 + (revealed/safe_total) × (full_clear_multiplier − 1)))`
does not match the code.  On the easy difficulty (3 mines on a 5×5 grid, so
`safe_total = 22`, multiplier 2), bet 55 with 2 safe tiles revealed: the
code's float evaluation yields 59, the claimed exact floor is 60.  The
session state is reached by two safe clicks from a fresh session. -/
theorem mines_payout_deviates_from_floor :
    payout_now 55 2 22 2 = 59 ∧
    payout_spec 55 2 22 2 = 60 ∧
    mines_payout
      ((minesClick ((minesClick (minesInit 55 3 2 {0, 1, 2}) 3 500).1) 4 500).1) = 59 ∧
    (59 : ℤ) ≠ 60 := by
  refine ⟨by decide, by decide, by decide, by decide⟩

/-- C4 (amended): the cash-out value is the binary64 evaluation of
`int(bet × (1 + (revealed/safe_total) × (mult − 1)))`, which can fall below
the exact floor (see the counterexample); the boundary identities hold
exactly — `payout(revealed = 0) = bet` and
`payout(revealed = safe_total) = bet × mult` — revealing the last safe tile
auto-settles crediting exactly `bet × multiplier`, and the spec's example
`bet = 100, safe_total = 20, mult = 3, revealed = 10` gives 200. -/
theorem mines_payout_boundaries :
    (∀ (bet : ℤ) (s : ℕ) (mult : ℤ), 1 ≤ bet → bet < 2 ^ 53 →
        payout_now bet 0 s mult = bet) ∧
    (∀ (bet : ℤ) (s : ℕ) (mult : ℤ), 0 < s → 1 ≤ bet → bet ≤ 2 ^ 40 →
        1 ≤ mult → mult ≤ 2 ^ 10 → payout_now bet s s mult = bet * mult) ∧
    (∀ (s : MinesView) (idx : ℕ) (bal : ℤ), s.alive = true → idx ∉ s.revealed →
        idx ∉ s.mines → s.safe_total = (insert idx s.revealed).card →
        minesClick s idx bal =
          ({ s with revealed := insert idx s.revealed, alive := false },
            bal + s.bet * s.multiplier, [⟨"mines_win", s.bet * s.multiplier⟩])) ∧
    payout_now 100 10 20 3 = 200 := by
  refine ⟨fun bet s mult h1 h2 => payout_now_zero bet s mult h1 h2,
    fun bet s mult hs h1 h2 h3 h4 => payout_now_full bet s mult hs h1 h2 h3 h4,
    ?_, by decide⟩
  intro s idx bal halive hrev hmine hfull
  have hngalive : ¬ (s.alive = false) := by rw [halive]; simp
  rw [minesClick, if_neg hngalive, if_neg hrev, if_neg hmine]
  have hz : s.safe_total - (insert idx s.revealed).card = 0 := by omega
  rw [if_pos hz]

/-- Witness for C4's amended boundary statements at concrete inputs. -/
theorem mines_payout_boundaries_witness :
    payout_now 70 0 22 5 = 70 ∧ payout_now 70 22 22 5 = 350 :=
  ⟨mines_payout_boundaries.1 70 22 5 (by norm_num) (by norm_num),
    by
      have h := (mines_payout_boundaries.2.1) 70 22 5 (by norm_num) (by norm_num)
        (by norm_num) (by norm_num) (by norm_num)
      simpa using h⟩

lemma finalize_not_pending (row : RedeemRow) (d : RStatus) (note : String) (tc : ℕ)
    (h : row.status ≠ RStatus.pending) :
    finalize row d note tc = (row, ⟨false, false, false⟩) := by
  simp [finalize, finalizeRead, finalizeWrite, h]

lemma finalize_pending (row : RedeemRow) (d : RStatus) (note : String) (tc : ℕ)
    (h : row.status = RStatus.pending) (hd : d ≠ RStatus.pending) :
    (finalize row d note tc).2.ok = true ∧ (finalize row d note tc).1.status = d ∧
    (finalize row d note tc).1.amount = row.amount := by
  simp only [finalize, finalizeRead, finalizeWrite, h]
  split_ifs <;> simp_all

/-- C3 (amended): in the instant games (coin-flip, slots, roulette) a
clamped bet greater than the current balance is rejected before the draw is
used — the balance is unchanged, no transaction record is created, and the
rejected result does not depend on the drawn randomness; mines and tower,
however, perform no balance validation at session start: the session is
created alive regardless of the balance (see the counterexample). -/
theorem insufficient_funds_guard :
    (∀ (bal bet : ℤ) (choice r1 r2 : Coin), clamp_bet bet > bal →
        do_coinflip bal bet choice r1 = (bal, []) ∧
        do_coinflip bal bet choice r1 = do_coinflip bal bet choice r2) ∧
    (∀ (bal bet : ℤ) (a b c a2 b2 c2 : SlotSym), clamp_bet bet > bal →
        do_slots bal bet a b c = (bal, []) ∧
        do_slots bal bet a b c = do_slots bal bet a2 b2 c2) ∧
    (∀ (bal bet : ℤ) (kind : RouletteBet) (r1 r2 : ℕ), clamp_bet bet > bal →
        roulette_spin bal bet kind r1 = (bal, []) ∧
        roulette_spin bal bet kind r1 = roulette_spin bal bet kind r2) ∧
    (∀ (bet : ℤ) (mc : ℕ) (mult : ℤ) (layout : Finset ℕ),
        (minesInit bet mc mult layout).alive = true) ∧
    (∀ (bet : ℤ) (bombs : List ℕ), (towerInit bet bombs).alive = true) := by
  refine ⟨?_, ?_, ?_, fun _ _ _ _ => rfl, fun _ _ => rfl⟩
  · intro bal bet choice r1 r2 h
    constructor <;> simp [do_coinflip, h]
  · intro bal bet a b c a2 b2 c2 h
    constructor <;> simp [do_slots, h]
  · intro bal bet kind r1 r2 h
    constructor <;> simp [roulette_spin, h]

/-- Witness for C3's amended statement: Scenario D's balance 50, bet 100 on
coin-flip is rejected with the balance unchanged and no record. -/
theorem insufficient_funds_guard_witness :
    do_coinflip 50 100 Coin.heads Coin.heads = (50, []) :=
  (insufficient_funds_guard.1 50 100 Coin.heads Coin.heads Coin.tails (by decide)).1

/-- C3 counterexample: starting a mines session does *not* validate
`balance ≥ bet`.  With balance 50 a session with bet 100 starts alive
(`MinesView.__init__` reads no balance), and clicking a mine then mutates
the ledger: balance drops to 0 and a `mines_loss` record of −50 is written,
although the bet (100, already within the clamp range) exceeded the
balance. -/
theorem mines_start_without_funds :
    (minesInit 100 3 2 {0, 1, 2}).alive = true ∧
    (minesClick (minesInit 100 3 2 {0, 1, 2}) 0 50).2.2 = [⟨"mines_loss", -50⟩] ∧
    (minesClick (minesInit 100 3 2 {0, 1, 2}) 0 50).2.1 = 0 ∧
    ¬ (clamp_bet 100 ≤ 50) := by
  refine ⟨rfl, by decide, by decide, by decide⟩

/-- C7: the red and black sets are fixed disjoint 18-element sets
partitioning 1..36 (0 being green); against any draw, a red/black bet
resolves to multiplier 2 exactly on colour match, green to 14 exactly on 0,
an exact-number bet to 36 exactly on equality, and the spin credits
`bet × multiplier` (with a `roulette_win` record) on a non-zero multiplier
or debits the bet (with a `roulette_loss` record) otherwise. -/
theorem roulette_resolution :
    ROULETTE_RED.card = 18 ∧ ROULETTE_BLACK.card = 18 ∧
    ROULETTE_RED ∩ ROULETTE_BLACK = ∅ ∧
    ROULETTE_RED ∪ ROULETTE_BLACK = Finset.Icc 1 36 ∧
    (∀ result ∈ Finset.range 37,
        roulette_mult RouletteBet.red result =
          if result ∈ ROULETTE_RED then 2 else 0) ∧
    (∀ result ∈ Finset.range 37,
        roulette_mult RouletteBet.black result =
          if result ∈ ROULETTE_BLACK then 2 else 0) ∧
    (∀ result : ℕ, roulette_mult RouletteBet.green result =
        if result = 0 then 14 else 0) ∧
    (∀ n result : ℕ, roulette_mult (RouletteBet.number n) result =
        if result = n then 36 else 0) ∧
    (∀ (bal bet : ℤ) (kind : RouletteBet) (result : ℕ), clamp_bet bet ≤ bal →
      (roulette_mult kind result ≠ 0 →
        roulette_spin bal bet kind result =
          (bal + clamp_bet bet * roulette_mult kind result,
            [⟨"roulette_win", clamp_bet bet * roulette_mult kind result⟩])) ∧
      (roulette_mult kind result = 0 →
        roulette_spin bal bet kind result =
          (bal - clamp_bet bet, [⟨"roulette_loss", -clamp_bet bet⟩]))) := by
  refine ⟨by decide, by decide, by decide, by decide, by decide, by decide,
    fun result => rfl, fun n result => rfl, ?_⟩
  intro bal bet kind result hle
  have hng : ¬ (clamp_bet bet > bal) := not_lt.mpr hle
  constructor <;> intro h <;> simp [roulette_spin, hng, h]

/-- Witness for C7: a winning red bet at a concrete draw. -/
theorem roulette_resolution_witness :
    roulette_spin 100 20 RouletteBet.red 3 = (140, [⟨"roulette_win", 40⟩]) :=
  (roulette_resolution.2.2.2.2.2.2.2.2 100 20 RouletteBet.red 3 (by decide)).1
    (by decide)

/-- C1 counterexample: `_finalize` is a separate `SELECT` followed by an
unconditional `UPDATE`, not a single conditional write; in the interleaving
where both calls read before either writes, *both* calls on the same
pending request succeed (one as approved, one as denied), and the second
write silently wins. -/
theorem resolve_race_both_succeed :
    (finalize_race ⟨300, RStatus.pending, "", none⟩ RStatus.approved RStatus.denied
        "ok" "no").2 = (true, true) ∧
    (finalize_race ⟨300, RStatus.pending, "", none⟩ RStatus.approved RStatus.denied
        "ok" "no").1.status = RStatus.denied := by
  exact ⟨rfl, rfl⟩

/-- C1 (amended): `Resolve` is a conditional transition in the
read-then-write sense: a call that observes a status other than `pending`
fails with AlreadyProcessed and performs no side effects (no status write,
no notification, no ticket); a call that observes `pending` succeeds and
writes the decision; and of two *sequential* (non-interleaved) `Resolve`
calls on a pending request exactly the first succeeds, the second failing
with AlreadyProcessed and leaving the row unchanged.  The check-and-set is
*not* an atomic conditional write (see the counterexample). -/
theorem resolve_conditional_transition :
    (∀ (row : RedeemRow) (d : RStatus) (note : String) (tc : ℕ),
        row.status ≠ RStatus.pending →
        finalize row d note tc = (row, ⟨false, false, false⟩)) ∧
    (∀ (row : RedeemRow) (d : RStatus) (note : String) (tc : ℕ),
        row.status = RStatus.pending → d ≠ RStatus.pending →
        (finalize row d note tc).2.ok = true ∧
        (finalize row d note tc).1.status = d) ∧
    (∀ (row : RedeemRow) (d1 d2 : RStatus) (n1 n2 : String) (tc1 tc2 : ℕ),
        row.status = RStatus.pending → d1 ≠ RStatus.pending →
        (finalize row d1 n1 tc1).2.ok = true ∧
        (finalize (finalize row d1 n1 tc1).1 d2 n2 tc2).2.ok = false ∧
        (finalize (finalize row d1 n1 tc1).1 d2 n2 tc2).1 =
          (finalize row d1 n1 tc1).1) := by
  refine ⟨finalize_not_pending, ?_, ?_⟩
  · intro row d note tc h hd
    exact ⟨(finalize_pending row d note tc h hd).1, (finalize_pending row d note tc h hd).2.1⟩
  · intro row d1 d2 n1 n2 tc1 tc2 h hd1
    have h1 := finalize_pending row d1 n1 tc1 h hd1
    have h2 : (finalize row d1 n1 tc1).1.status ≠ RStatus.pending := by
      rw [h1.2.1]; exact hd1
    have h3 := finalize_not_pending (finalize row d1 n1 tc1).1 d2 n2 tc2 h2
    refine ⟨h1.1, ?_, ?_⟩ <;> rw [h3]

/-- Witness for C1's amended statement: a sequential approve-then-deny on a
concrete pending row. -/
theorem resolve_conditional_transition_witness :
    (finalize ⟨300, RStatus.pending, "", none⟩ RStatus.approved "ok" 7).2.ok = true ∧
    (finalize (finalize ⟨300, RStatus.pending, "", none⟩ RStatus.approved "ok" 7).1
        RStatus.denied "no" 8).2.ok = false ∧
    (finalize (finalize ⟨300, RStatus.pending, "", none⟩ RStatus.approved "ok" 7).1
        RStatus.denied "no" 8).1 =
      (finalize ⟨300, RStatus.pending, "", none⟩ RStatus.approved "ok" 7).1 :=
  resolve_conditional_transition.2.2 ⟨300, RStatus.pending, "", none⟩
    RStatus.approved RStatus.denied "ok" "no" 7 8 rfl (by decide)

/-- C5: a redeem request's charged amount is debited exactly once, at
creation, with exactly one `redeem_request` record of `-cost`; resolving
the request as denied sets its status to `denied` and changes nothing about
the account — the balance and the transaction log are untouched (no refund)
— and approval likewise performs no second debit.  Includes the spec's
Scenario C (balance 500, cost 300, then denial). -/
theorem redeem_charge_once :
    (∀ (bal cost : ℤ), cost ≤ bal →
        redeemCreate bal cost =
          (bal - cost, some ⟨cost, RStatus.pending, "", none⟩,
            [⟨"redeem_request", -cost⟩])) ∧
    (∀ (w : RWorld) (note : String) (tc : ℕ), w.row.status = RStatus.pending →
        (resolveRedeem w RStatus.denied note tc).1.bal = w.bal ∧
        (resolveRedeem w RStatus.denied note tc).1.log = w.log ∧
        (resolveRedeem w RStatus.denied note tc).1.row.status = RStatus.denied ∧
        (resolveRedeem w RStatus.denied note tc).1.row.amount = w.row.amount) ∧
    (∀ (w : RWorld) (note : String) (tc : ℕ),
        (resolveRedeem w RStatus.approved note tc).1.bal = w.bal ∧
        (resolveRedeem w RStatus.approved note tc).1.log = w.log) ∧
    (redeemCreate 500 300).1 = 200 ∧
    (resolveRedeem ⟨200, ⟨300, RStatus.pending, "", none⟩,
        [⟨"redeem_request", -300⟩]⟩ RStatus.denied "invalid" 9).1.bal = 200 := by
  refine ⟨?_, ?_, fun w note tc => ⟨rfl, rfl⟩, by decide, rfl⟩
  · intro bal cost h
    simp [redeemCreate, not_lt.mpr h]
  · intro w note tc h
    have hp := finalize_pending w.row RStatus.denied note tc h (by decide)
    exact ⟨rfl, rfl, hp.2.1, hp.2.2⟩

/-- Witness for C5 at a concrete balance and cost. -/
theorem redeem_charge_once_witness :
    redeemCreate 400 400 =
      (0, some ⟨400, RStatus.pending, "", none⟩, [⟨"redeem_request", -400⟩]) := by
  have h := redeem_charge_once.1 400 400 (by norm_num)
  simpa using h

/-- C6: once a mines or tower session is not alive, every further click,
pick or cash-out is a pure no-op (no balance change, no record); any call
that writes a settlement record also returns the session with
`alive = false` (the fence is set before the ledger side effect); and over
any sequence of interactions on one session, at most one settlement record
is ever written. -/
theorem session_settles_at_most_once :
    (∀ (s : MinesView) (idx : ℕ) (bal : ℤ), s.alive = false →
        minesClick s idx bal = (s, bal, [])) ∧
    (∀ (s : MinesView) (bal : ℤ), s.alive = false →
        minesCashout s bal = (s, bal, [])) ∧
    (∀ (s : MinesView) (idx : ℕ) (bal : ℤ), (minesClick s idx bal).2.2 ≠ [] →
        (minesClick s idx bal).1.alive = false) ∧
    (∀ (s : MinesView) (bal : ℤ), (minesCashout s bal).2.2 ≠ [] →
        (minesCashout s bal).1.alive = false) ∧
    (∀ (s : MinesView) (bal : ℤ) (acts : List MinesAct),
        (minesRun s bal acts).2.2.length ≤ 1) ∧
    (∀ (s : TowerView) (i : ℕ) (bal : ℤ), s.alive = false →
        towerPick s i bal = (s, bal, [])) ∧
    (∀ (s : TowerView) (bal : ℤ), s.alive = false →
        towerCashout s bal = (s, bal, [])) ∧
    (∀ (s : TowerView) (i : ℕ) (bal : ℤ), (towerPick s i bal).2.2 ≠ [] →
        (towerPick s i bal).1.alive = false) ∧
    (∀ (s : TowerView) (bal : ℤ), (towerCashout s bal).2.2 ≠ [] →
        (towerCashout s bal).1.alive = false) ∧
    (∀ (s : TowerView) (bal : ℤ) (acts : List TowerAct),
        (towerRun s bal acts).2.2.length ≤ 1) :=
  ⟨minesClick_dead, minesCashout_dead, minesClick_emits, minesCashout_emits,
    minesRun_le_one, towerPick_dead, towerCashout_dead, towerPick_emits,
    towerCashout_emits, towerRun_le_one⟩

/-- Witness for C6: a dead mines session ignores a click, and a double
cash-out on a fresh session writes exactly one record. -/
theorem session_settles_at_most_once_witness :
    minesClick { minesInit 50 3 2 {0, 1, 2} with alive := false } 0 100 =
      ({ minesInit 50 3 2 {0, 1, 2} with alive := false }, 100, []) ∧
    (minesRun (minesInit 50 3 2 {0, 1, 2}) 100 [MinesAct.cash, MinesAct.cash]).2.2.length ≤ 1 :=
  ⟨session_settles_at_most_once.1 _ 0 100 rfl,
    session_settles_at_most_once.2.2.2.2.1 (minesInit 50 3 2 {0, 1, 2}) 100 _⟩
